import Mathlib

/-!
Verification of qdcrop (src/main.rs) against its specification.

The program rectifies a photographed rectangle: it thresholds the image to a
binary mask, searches for the mask pixel nearest to each of the 4 image
corners, derives output dimensions under a 16:9 aspect policy with a
(1024·16/9, 1024) cap, solves a homography and warps.

This file gives a shallow embedding of the integer corner search
(`find_nearest_to_corner`, main.rs lines 106-184), of the size policy
(`crop`, lines 209-231) and of the batch aggregation (`main`, lines 311-330).
The `f64` arithmetic of the size policy is modelled as exact rational
arithmetic; the two divisions whose denominator can be zero (the clamp
ratios, where IEEE gives +infinity) are modelled by an explicit case split
(`divInfLe`, `divInfLtOne`) so that the zero-denominator behaviour matches
IEEE comparison results for the positive numerators used by the program.
The floating-point SVD solve of `from_control_points` (lines 29-97) is not
modelled.
-/

/-- The binary mask searched by `find_nearest_to_corner`: the code's generic
`GenericImageView` together with the test `get_pixel(x, y) == P::black()`
(main.rs 106-110, 135, 162).  `dark x y` is that pixel test; only values with
`x < width` and `y < height` are ever queried by the embedded code. -/
structure Mask where
  width : Nat
  height : Nat
  dark : Nat → Nat → Bool

/-- The best-candidate accumulator `struct Nearest` (main.rs 111-116). -/
structure Nearest where
  square_distance : Nat
  x : Nat
  y : Nat

/-- One accumulator update, the Rust
`nearest = Some(match nearest { Some(v @ Nearest { square_distance: c, .. }) if c < square_distance => v, _ => Nearest { .. } })`
(main.rs 137-150 and 164-177): the old candidate is kept only when its
distance is strictly smaller, so an equal-distance candidate replaces it. -/
def updateNearest (nearest : Option Nearest) (sd x y : Nat) : Option Nearest :=
  match nearest with
  | some v => if v.square_distance < sd then some v else some ⟨sd, x, y⟩
  | none => some ⟨sd, x, y⟩

/-- The code's `real_x` computation (main.rs 134, 155):
`if flip_x { width - 1 - x } else { x }`.  It is an involution on `[0, width)`. -/
def offsetX (m : Mask) (fx : Bool) (x : Nat) : Nat :=
  if fx then m.width - 1 - x else x

/-- The code's `real_y` computation (main.rs 128-132, 157-161). -/
def offsetY (m : Mask) (fy : Bool) (y : Nat) : Nat :=
  if fy then m.height - 1 - y else y

/-- The pixels visited by the row scan of ring `i`, in scan order, each as
`(square_distance, real_x, real_y)` exactly as computed by main.rs 127-136:
guard `i < height`, `x` ranging over `0..min(i+1, width)`,
distance `x*x + i*i`. -/
def rowVisits (m : Mask) (fx fy : Bool) (i : Nat) : List (Nat × Nat × Nat) :=
  if i < m.height then
    (List.range (min (i + 1) m.width)).map fun x =>
      (x * x + i * i, offsetX m fx x, offsetY m fy i)
  else []

/-- The pixels visited by the column scan of ring `i`, in scan order
(main.rs 154-163): guard `i < width`, `y` ranging over `0..min(i, height)`,
distance `i*i + y*y`. -/
def colVisits (m : Mask) (fx fy : Bool) (i : Nat) : List (Nat × Nat × Nat) :=
  if i < m.width then
    (List.range (min i m.height)).map fun y =>
      (i * i + y * y, offsetX m fx i, offsetY m fy y)
  else []

/-- Ring `i` scans its row first, then its column (main.rs 127-180). -/
def ringVisits (m : Mask) (fx fy : Bool) (i : Nat) : List (Nat × Nat × Nat) :=
  rowVisits m fx fy i ++ colVisits m fx fy i

/-- Processing one visited pixel: test the mask, conditionally update the
accumulator (main.rs 135-151 and 162-178). -/
def darkStep (m : Mask) (acc : Option Nearest) (p : Nat × Nat × Nat) : Option Nearest :=
  if m.dark p.2.1 p.2.2 then updateNearest acc p.1 p.2.1 p.2.2 else acc

/-- The body of one iteration of the outer loop: scan ring `i` (main.rs 127-180). -/
def ringScan (m : Mask) (fx fy : Bool) (i : Nat) (acc : Option Nearest) : Option Nearest :=
  (ringVisits m fx fy i).foldl (darkStep m) acc

/-- The outer loop `for i in 0..max(width, height)` with its early break
`if square_distance < i_squared { break }` checked at the top of each
iteration (main.rs 118-181).  `fuel` counts the remaining iterations,
`i` is the current ring radius. -/
def runRings (m : Mask) (fx fy : Bool) : Nat → Nat → Option Nearest → Option Nearest
  | _, 0, acc => acc
  | i, fuel + 1, acc =>
    match acc with
    | some v =>
      if v.square_distance < i * i then some v
      else runRings m fx fy (i + 1) fuel (ringScan m fx fy i (some v))
    | none => runRings m fx fy (i + 1) fuel (ringScan m fx fy i none)

/-- `find_nearest_to_corner` (main.rs 106-184): run the expanding-ring search
and project the accumulator to its coordinates (`nearest.map(|n| (n.x, n.y))`). -/
def find_nearest_to_corner (m : Mask) (flip_x flip_y : Bool) : Option (Nat × Nat) :=
  (runRings m flip_x flip_y 0 (max m.width m.height) none).map fun n => (n.x, n.y)

/-- All visits of the search in scan order, rings in increasing radius. -/
def visitOrder (m : Mask) (fx fy : Bool) : List (Nat × Nat × Nat) :=
  (List.range (max m.width m.height)).flatMap (ringVisits m fx fy)

/-- The break-free equivalent of the search loop: fold the update over every
visit in scan order. -/
def visitFold (m : Mask) (fx fy : Bool) : Option Nearest :=
  (visitOrder m fx fy).foldl (darkStep m) none

/-- Squared Euclidean distance of pixel `(x, y)` to the corner pixel selected
by the flags (`(0,0)`, `(width-1,0)`, `(0,height-1)` or `(width-1,height-1)`),
which for in-bounds pixels is exactly the `x*x + i*i` / `i*i + y*y` quantity
the code accumulates. -/
def cornerDistSq (m : Mask) (fx fy : Bool) (x y : Nat) : Nat :=
  offsetX m fx x * offsetX m fx x + offsetY m fy y * offsetY m fy y

/-- `(x, y)` is an in-bounds dark pixel of the mask. -/
def DarkIn (m : Mask) (x y : Nat) : Prop :=
  x < m.width ∧ y < m.height ∧ m.dark x y = true

/-- The aspect-adoption step of the size policy (main.rs 211-217), over exact
rationals in place of `f64`:
`height_aspect = 9*width/16`, `width_aspect = 16*height/9`, then
`if height_aspect < height { (width_aspect, height) } else { (width, height_aspect) }`. -/
def adoptAspect (width height : ℚ) : ℚ × ℚ :=
  if 9 * width / 16 < height then (16 * height / 9, height)
  else (width, 9 * width / 16)

/-- `MAX_HEIGHT` (main.rs 219). -/
def MAX_HEIGHT : ℚ := 1024

/-- `MAX_WIDTH = 1024.0 * 16.0 / 9.0` (main.rs 220). -/
def MAX_WIDTH : ℚ := 1024 * 16 / 9

/-- `a / b <= c / d` under `f64` semantics where a positive numerator divided
by zero is `+infinity`; the zero-denominator cases are split off explicitly
(used with the positive numerators `MAX_HEIGHT`, `MAX_WIDTH`). -/
def divInfLe (a b c d : ℚ) : Bool :=
  if b = 0 then decide (d = 0) else if d = 0 then true else decide (a / b ≤ c / d)

/-- `a / b < 1` under the same `f64` convention: `+infinity < 1` is false. -/
def divInfLtOne (a b : ℚ) : Bool :=
  if b = 0 then false else decide (a / b < 1)

/-- The clamp step of the size policy (main.rs 219-229):
`height_ratio = MAX_HEIGHT / height`, `width_ratio = MAX_WIDTH / width`;
scale by `height_ratio` when `height_ratio <= width_ratio && height_ratio < 1`,
else by `width_ratio` when `width_ratio <= height_ratio && width_ratio < 1`,
else leave unchanged. -/
def clampDims (width height : ℚ) : ℚ × ℚ :=
  if divInfLe MAX_HEIGHT height MAX_WIDTH width && divInfLtOne MAX_HEIGHT height then
    (width * (MAX_HEIGHT / height), MAX_HEIGHT)
  else if divInfLe MAX_WIDTH width MAX_HEIGHT height && divInfLtOne MAX_WIDTH width then
    (MAX_WIDTH, height * (MAX_WIDTH / width))
  else (width, height)

/-- `v.round() as u32` (main.rs 231) for the nonnegative finite values arising
here: `f64::round` rounds half away from zero, which for `0 ≤ q` is
`⌊q + 1/2⌋`, and `as u32` saturates at `u32::MAX`. -/
def roundAsU32 (q : ℚ) : Nat :=
  min (Int.toNat ⌊q + 1 / 2⌋) (2 ^ 32 - 1)

/-- The whole size policy (main.rs 209-231) from the raw content spans:
adopt the 16:9 aspect, clamp, round. -/
def sizePolicy (rawW rawH : Nat) : Nat × Nat :=
  let a := adoptAspect (rawW : ℚ) (rawH : ℚ)
  let c := clampDims a.1 a.2
  (roundAsU32 c.1, roundAsU32 c.2)

/-- Outcome of the geometry stages of `crop` (main.rs 201-234), up to the call
of `from_control_points`. -/
inductive StageResult where
  /-- The first corner search returned `None`: the `?` on
  `.context("No interesting points")` aborts the job (main.rs 203). -/
  | noPoints : StageResult
  /-- One of the three `.unwrap()` corner searches returned `None`
  (main.rs 204-206): the job panics instead of returning an error. -/
  | panicked : StageResult
  /-- The job reaches the `from_control_points` call (main.rs 233-234) with
  these rounded output dimensions. -/
  | solve : Nat × Nat → StageResult
deriving DecidableEq

/-- The geometry stages of `crop` (main.rs 201-234): the four corner searches
(top-left via `?`, the other three via `.unwrap()`), the raw spans
`width = max(closest[1].0 - closest[0].0, closest[2].0 - closest[3].0)`,
`height = max(closest[3].1 - closest[0].1, closest[2].1 - closest[1].1)`
(truncated `u32` subtraction), then the size policy.  There is no check on
the rounded dimensions before the solve. -/
def crop_stage (m : Mask) : StageResult :=
  match find_nearest_to_corner m false false with
  | none => StageResult.noPoints
  | some c0 =>
    match find_nearest_to_corner m true false, find_nearest_to_corner m true true,
        find_nearest_to_corner m false true with
    | some c1, some c2, some c3 =>
      StageResult.solve
        (sizePolicy (max (c1.1 - c0.1) (c2.1 - c3.1)) (max (c3.2 - c0.2) (c2.2 - c1.2)))
    | _, _, _ => StageResult.panicked

/-- The per-job outcomes of the batch (main.rs 311-324): each job is mapped
independently through `crop`, `true` on success. -/
def batchOutcomes {α : Type} (jobs : List α) (runJob : α → Bool) : List Bool :=
  jobs.map runJob

/-- `failed`: the number of unsuccessful jobs,
`.filter(|success| !success).count()` (main.rs 325-326). -/
def failedCount (outcomes : List Bool) : Nat :=
  (outcomes.filter fun success => !success).length

/-- The process exit status (main.rs 327-330): `process::exit(1)` when
`failed > 0`, otherwise the `Ok(())` exit `0`. -/
def exitCode (outcomes : List Bool) : Nat :=
  if 0 < failedCount outcomes then 1 else 0

/-- Concrete 3×3 mask with the single dark pixel `(2, 1)` (witness input). -/
def c4mask : Mask := ⟨3, 3, fun x y => x == 2 && y == 1⟩

/-- Concrete 2×2 all-light mask (witness input). -/
def c6emptyMask : Mask := ⟨2, 2, fun _ _ => false⟩

/-- Concrete 3×3 mask with the single dark pixel `(1, 1)` (witness input). -/
def c6oneMask : Mask := ⟨3, 3, fun x y => x == 1 && y == 1⟩

/-- Concrete 2×2 mask, dark at `(0, 1)` and `(1, 0)`: both dark pixels are at
squared distance 1 from the top-left corner, and the row scan of ring 1 visits
`(0, 1)` before the column scan visits `(1, 0)` (counterexample input). -/
def c7mask : Mask := ⟨2, 2, fun x y => (x == 0 && y == 1) || (x == 1 && y == 0)⟩

/-- Concrete 3×3 mask with the single dark pixel `(1, 1)`: every corner search
returns `(1, 1)`, so both raw content spans are 0 (failing input for the
missing dimension check). -/
def c8mask : Mask := ⟨3, 3, fun x y => x == 1 && y == 1⟩

/-- Concrete 4×3 mask, dark at `(0, 0)` and `(3, 2)` (witness input). -/
def c10mask : Mask := ⟨4, 3, fun x y => (x == 0 && y == 0) || (x == 3 && y == 2)⟩

lemma updateNearest_spec (acc : Option Nearest) (sd x y : Nat) :
    ∃ n', updateNearest acc sd x y = some n' ∧ n'.square_distance ≤ sd ∧
      ∀ v, acc = some v → n'.square_distance ≤ v.square_distance := by
  cases acc with
  | none =>
    exact ⟨⟨sd, x, y⟩, rfl, le_refl _, fun v h => by cases h⟩
  | some v =>
    by_cases h : v.square_distance < sd
    · refine ⟨v, by simp [updateNearest, h], le_of_lt h, ?_⟩
      intro w hw
      injection hw with hw
      subst hw
      exact le_refl _
    · refine ⟨⟨sd, x, y⟩, by simp [updateNearest, h], le_refl _, ?_⟩
      intro w hw
      injection hw with hw
      subst hw
      exact le_of_not_lt h

lemma updateNearest_cases (acc : Option Nearest) (sd x y : Nat) {n : Nearest}
    (h : updateNearest acc sd x y = some n) :
    n = ⟨sd, x, y⟩ ∨ acc = some n := by
  cases acc with
  | none =>
    injection h with h
    exact Or.inl h.symm
  | some v =>
    simp only [updateNearest] at h
    by_cases hlt : v.square_distance < sd
    · rw [if_pos hlt] at h
      injection h with h
      exact Or.inr (congrArg some h)
    · rw [if_neg hlt] at h
      injection h with h
      exact Or.inl h.symm

lemma foldl_darkStep_mono (m : Mask) (l : List (Nat × Nat × Nat)) :
    ∀ n : Nearest, ∃ n', l.foldl (darkStep m) (some n) = some n' ∧
      n'.square_distance ≤ n.square_distance := by
  induction l with
  | nil => exact fun n => ⟨n, rfl, le_refl _⟩
  | cons p l ih =>
    intro n
    rw [List.foldl_cons]
    unfold darkStep
    by_cases hd : m.dark p.2.1 p.2.2 = true
    · rw [if_pos hd]
      obtain ⟨n₀, hn₀, hle, hlv⟩ := updateNearest_spec (some n) p.1 p.2.1 p.2.2
      rw [hn₀]
      obtain ⟨n', h', hle'⟩ := ih n₀
      exact ⟨n', h', le_trans hle' (hlv n rfl)⟩
    · rw [if_neg hd]
      exact ih n

lemma foldl_darkStep_hit (m : Mask) (l : List (Nat × Nat × Nat)) :
    ∀ (acc : Option Nearest) (p : Nat × Nat × Nat), p ∈ l → m.dark p.2.1 p.2.2 = true →
      ∃ n', l.foldl (darkStep m) acc = some n' ∧ n'.square_distance ≤ p.1 := by
  induction l with
  | nil => intro acc p hp; cases hp
  | cons q l ih =>
    intro acc p hp hd
    rw [List.foldl_cons]
    rcases List.mem_cons.mp hp with rfl | hp'
    · have hstep : ∃ n₀, darkStep m acc p = some n₀ ∧ n₀.square_distance ≤ p.1 := by
        unfold darkStep
        rw [if_pos hd]
        obtain ⟨n₀, h₀, hle, _⟩ := updateNearest_spec acc p.1 p.2.1 p.2.2
        exact ⟨n₀, h₀, hle⟩
      obtain ⟨n₀, h₀, hle⟩ := hstep
      rw [h₀]
      obtain ⟨n', h', hle'⟩ := foldl_darkStep_mono m l n₀
      exact ⟨n', h', le_trans hle' hle⟩
    · exact ih (darkStep m acc q) p hp' hd

lemma foldl_darkStep_pred (m : Mask) (P : Nearest → Prop) (l : List (Nat × Nat × Nat)) :
    ∀ acc : Option Nearest, (∀ v, acc = some v → P v) →
      (∀ p ∈ l, m.dark p.2.1 p.2.2 = true → P ⟨p.1, p.2.1, p.2.2⟩) →
      ∀ n', l.foldl (darkStep m) acc = some n' → P n' := by
  induction l with
  | nil => exact fun acc hacc _ n' h => hacc n' h
  | cons p l ih =>
    intro acc hacc hl n' h
    rw [List.foldl_cons] at h
    refine ih (darkStep m acc p) ?_ (fun q hq => hl q (List.mem_cons_of_mem _ hq)) n' h
    intro v hv
    unfold darkStep at hv
    by_cases hd : m.dark p.2.1 p.2.2 = true
    · rw [if_pos hd] at hv
      rcases updateNearest_cases acc p.1 p.2.1 p.2.2 hv with rfl | hacc'
      · exact hl p (List.mem_cons_self _ _) hd
      · exact hacc v hacc'
    · rw [if_neg hd] at hv
      exact hacc v hv

lemma foldl_darkStep_keep (m : Mask) (l : List (Nat × Nat × Nat)) :
    ∀ n : Nearest, (∀ p ∈ l, n.square_distance < p.1) →
      l.foldl (darkStep m) (some n) = some n := by
  induction l with
  | nil => intro n _; rfl
  | cons p l ih =>
    intro n h
    rw [List.foldl_cons]
    have hstep : darkStep m (some n) p = some n := by
      simp only [darkStep, updateNearest]
      by_cases hd : m.dark p.2.1 p.2.2 = true
      · rw [if_pos hd, if_pos (h p (List.mem_cons_self _ _))]
      · rw [if_neg hd]
    rw [hstep]
    exact ih n (fun q hq => h q (List.mem_cons_of_mem _ hq))

lemma foldl_darkStep_none (m : Mask) :
    ∀ l : List (Nat × Nat × Nat), (∀ p ∈ l, m.dark p.2.1 p.2.2 = false) →
      l.foldl (darkStep m) none = none := by
  intro l
  induction l with
  | nil => intro _; rfl
  | cons p l ih =>
    intro h
    rw [List.foldl_cons]
    have hstep : darkStep m none p = none := by
      unfold darkStep
      rw [h p (List.mem_cons_self _ _)]
      exact if_neg (by simp)
    rw [hstep]
    exact ih (fun q hq => h q (List.mem_cons_of_mem _ hq))

lemma offsetX_lt (m : Mask) (fx : Bool) {x : Nat} (hx : x < m.width) :
    offsetX m fx x < m.width := by
  unfold offsetX
  split
  · omega
  · exact hx

lemma offsetY_lt (m : Mask) (fy : Bool) {y : Nat} (hy : y < m.height) :
    offsetY m fy y < m.height := by
  unfold offsetY
  split
  · omega
  · exact hy

lemma offsetX_invol (m : Mask) (fx : Bool) {x : Nat} (hx : x < m.width) :
    offsetX m fx (offsetX m fx x) = x := by
  unfold offsetX
  split <;> omega

lemma offsetY_invol (m : Mask) (fy : Bool) {y : Nat} (hy : y < m.height) :
    offsetY m fy (offsetY m fy y) = y := by
  unfold offsetY
  split <;> omega

lemma visitOrder_sound (m : Mask) (fx fy : Bool) {p : Nat × Nat × Nat}
    (hp : p ∈ visitOrder m fx fy) :
    p.2.1 < m.width ∧ p.2.2 < m.height ∧ p.1 = cornerDistSq m fx fy p.2.1 p.2.2 := by
  obtain ⟨i, _, hpi⟩ := List.mem_flatMap.mp hp
  rcases List.mem_append.mp hpi with hrow | hcol
  · unfold rowVisits at hrow
    by_cases hiH : i < m.height
    · rw [if_pos hiH] at hrow
      obtain ⟨x, hx, rfl⟩ := List.mem_map.mp hrow
      rw [List.mem_range] at hx
      have hxW : x < m.width := lt_of_lt_of_le hx (min_le_right _ _)
      refine ⟨offsetX_lt m fx hxW, offsetY_lt m fy hiH, ?_⟩
      unfold cornerDistSq
      rw [offsetX_invol m fx hxW, offsetY_invol m fy hiH]
    · rw [if_neg hiH] at hrow
      cases hrow
  · unfold colVisits at hcol
    by_cases hiW : i < m.width
    · rw [if_pos hiW] at hcol
      obtain ⟨y, hy, rfl⟩ := List.mem_map.mp hcol
      rw [List.mem_range] at hy
      have hyH : y < m.height := lt_of_lt_of_le hy (min_le_right _ _)
      refine ⟨offsetX_lt m fx hiW, offsetY_lt m fy hyH, ?_⟩
      unfold cornerDistSq
      rw [offsetX_invol m fx hiW, offsetY_invol m fy hyH]
    · rw [if_neg hiW] at hcol
      cases hcol

lemma visitOrder_cover (m : Mask) (fx fy : Bool) {x y : Nat}
    (hx : x < m.width) (hy : y < m.height) :
    (cornerDistSq m fx fy x y, x, y) ∈ visitOrder m fx fy := by
  have haW : offsetX m fx x < m.width := offsetX_lt m fx hx
  have hbH : offsetY m fy y < m.height := offsetY_lt m fy hy
  apply List.mem_flatMap.mpr
  by_cases hab : offsetX m fx x ≤ offsetY m fy y
  · refine ⟨offsetY m fy y, List.mem_range.mpr (by omega), List.mem_append.mpr (Or.inl ?_)⟩
    unfold rowVisits
    rw [if_pos hbH]
    apply List.mem_map.mpr
    refine ⟨offsetX m fx x, List.mem_range.mpr (by omega), ?_⟩
    rw [offsetX_invol m fx hx, offsetY_invol m fy hy]
    rfl
  · refine ⟨offsetX m fx x, List.mem_range.mpr (by omega), List.mem_append.mpr (Or.inr ?_)⟩
    unfold colVisits
    rw [if_pos haW]
    apply List.mem_map.mpr
    refine ⟨offsetY m fy y, List.mem_range.mpr (by omega), ?_⟩
    rw [offsetX_invol m fx hx, offsetY_invol m fy hy]
    rfl

lemma ringVisits_sq_le (m : Mask) (fx fy : Bool) (i : Nat) {p : Nat × Nat × Nat}
    (hp : p ∈ ringVisits m fx fy i) : i * i ≤ p.1 := by
  rcases List.mem_append.mp hp with h | h
  · unfold rowVisits at h
    by_cases hiH : i < m.height
    · rw [if_pos hiH] at h
      obtain ⟨x, _, rfl⟩ := List.mem_map.mp h
      exact Nat.le_add_left _ _
    · rw [if_neg hiH] at h
      cases h
  · unfold colVisits at h
    by_cases hiW : i < m.width
    · rw [if_pos hiW] at h
      obtain ⟨y, _, rfl⟩ := List.mem_map.mp h
      exact Nat.le_add_right _ _
    · rw [if_neg hiW] at h
      cases h

lemma runRings_succ_none (m : Mask) (fx fy : Bool) (i fuel : Nat) :
    runRings m fx fy i (fuel + 1) none = runRings m fx fy (i + 1) fuel (ringScan m fx fy i none) :=
  rfl

lemma runRings_succ_some (m : Mask) (fx fy : Bool) (i fuel : Nat) (v : Nearest) :
    runRings m fx fy i (fuel + 1) (some v) =
      if v.square_distance < i * i then some v
      else runRings m fx fy (i + 1) fuel (ringScan m fx fy i (some v)) :=
  rfl

lemma runRings_eq_fold (m : Mask) (fx fy : Bool) :
    ∀ (fuel i : Nat) (acc : Option Nearest),
      runRings m fx fy i fuel acc =
        ((List.range' i fuel).flatMap (ringVisits m fx fy)).foldl (darkStep m) acc := by
  intro fuel
  induction fuel with
  | zero => intro i acc; rfl
  | succ fuel ih =>
    intro i acc
    rw [List.range'_succ, List.flatMap_cons]
    cases acc with
    | none =>
      rw [runRings_succ_none, ih (i + 1), List.foldl_append]
      rfl
    | some v =>
      rw [runRings_succ_some]
      by_cases hb : v.square_distance < i * i
      · rw [if_pos hb]
        have hkeep : ∀ p ∈ ringVisits m fx fy i ++
            (List.range' (i + 1) fuel).flatMap (ringVisits m fx fy),
            v.square_distance < p.1 := by
          intro p hp
          rcases List.mem_append.mp hp with h | h
          · exact lt_of_lt_of_le hb (ringVisits_sq_le m fx fy i h)
          · obtain ⟨j, hj, hpj⟩ := List.mem_flatMap.mp h
            rw [List.mem_range'_1] at hj
            have hij : i * i ≤ j * j := Nat.mul_le_mul (by omega) (by omega)
            exact lt_of_lt_of_le hb (le_trans hij (ringVisits_sq_le m fx fy j hpj))
        rw [foldl_darkStep_keep m _ v hkeep]
      · rw [if_neg hb, ih (i + 1), List.foldl_append]
        rfl

lemma find_eq_visitFold (m : Mask) (fx fy : Bool) :
    find_nearest_to_corner m fx fy = (visitFold m fx fy).map fun n => (n.x, n.y) := by
  unfold find_nearest_to_corner visitFold visitOrder
  rw [runRings_eq_fold m fx fy (max m.width m.height) 0 none, List.range_eq_range' _]

lemma visitFold_good (m : Mask) (fx fy : Bool) {n : Nearest}
    (h : visitFold m fx fy = some n) :
    DarkIn m n.x n.y ∧ n.square_distance = cornerDistSq m fx fy n.x n.y := by
  refine foldl_darkStep_pred m
    (fun v => DarkIn m v.x v.y ∧ v.square_distance = cornerDistSq m fx fy v.x v.y)
    (visitOrder m fx fy) none (fun v hv => by cases hv) ?_ n h
  intro p hp hd
  obtain ⟨h1, h2, h3⟩ := visitOrder_sound m fx fy hp
  exact ⟨⟨h1, h2, hd⟩, h3⟩

lemma visitFold_min (m : Mask) (fx fy : Bool) {n : Nearest}
    (h : visitFold m fx fy = some n) {x y : Nat} (hxy : DarkIn m x y) :
    n.square_distance ≤ cornerDistSq m fx fy x y := by
  obtain ⟨hx, hy, hd⟩ := hxy
  obtain ⟨n', h', hle⟩ :=
    foldl_darkStep_hit m (visitOrder m fx fy) none _ (visitOrder_cover m fx fy hx hy) hd
  have h'' : visitFold m fx fy = some n' := h'
  rw [h] at h''
  injection h'' with h''
  rw [h'']
  exact hle

lemma visitFold_isSome (m : Mask) (fx fy : Bool) {x y : Nat} (hxy : DarkIn m x y) :
    ∃ n, visitFold m fx fy = some n := by
  obtain ⟨hx, hy, hd⟩ := hxy
  obtain ⟨n', h', _⟩ :=
    foldl_darkStep_hit m (visitOrder m fx fy) none _ (visitOrder_cover m fx fy hx hy) hd
  exact ⟨n', h'⟩

lemma find_some_spec (m : Mask) (fx fy : Bool) {p : Nat × Nat}
    (h : find_nearest_to_corner m fx fy = some p) :
    DarkIn m p.1 p.2 ∧ ∀ x y, DarkIn m x y →
      cornerDistSq m fx fy p.1 p.2 ≤ cornerDistSq m fx fy x y := by
  rw [find_eq_visitFold] at h
  cases hv : visitFold m fx fy with
  | none => rw [hv] at h; cases h
  | some n =>
    rw [hv] at h
    simp only [Option.map_some'] at h
    injection h with h
    obtain ⟨hdark, hsd⟩ := visitFold_good m fx fy hv
    subst h
    refine ⟨hdark, ?_⟩
    intro x y hxy
    have := visitFold_min m fx fy hv hxy
    rw [← hsd]
    exact this

lemma find_isSome (m : Mask) (fx fy : Bool) (hdark : ∃ x y, DarkIn m x y) :
    ∃ p, find_nearest_to_corner m fx fy = some p := by
  obtain ⟨x, y, hxy⟩ := hdark
  obtain ⟨n, hn⟩ := visitFold_isSome m fx fy hxy
  refine ⟨(n.x, n.y), ?_⟩
  rw [find_eq_visitFold, hn]
  rfl

lemma darkStep_not_dark (m : Mask) (acc : Option Nearest) {p : Nat × Nat × Nat}
    (hd : ¬ m.dark p.2.1 p.2.2 = true) : darkStep m acc p = acc := by
  unfold darkStep
  rw [if_neg hd]

lemma darkStep_dark_none (m : Mask) {p : Nat × Nat × Nat}
    (hd : m.dark p.2.1 p.2.2 = true) :
    darkStep m none p = some ⟨p.1, p.2.1, p.2.2⟩ := by
  unfold darkStep
  rw [if_pos hd]
  rfl

lemma darkStep_dark_keep (m : Mask) {p : Nat × Nat × Nat} {v : Nearest}
    (hd : m.dark p.2.1 p.2.2 = true) (hlt : v.square_distance < p.1) :
    darkStep m (some v) p = some v := by
  simp only [darkStep, updateNearest]
  rw [if_pos hd, if_pos hlt]

lemma darkStep_dark_replace (m : Mask) {p : Nat × Nat × Nat} {v : Nearest}
    (hd : m.dark p.2.1 p.2.2 = true) (hlt : ¬ v.square_distance < p.1) :
    darkStep m (some v) p = some ⟨p.1, p.2.1, p.2.2⟩ := by
  simp only [darkStep, updateNearest]
  rw [if_pos hd, if_neg hlt]

lemma foldl_darkStep_lastMin (m : Mask) (l : List (Nat × Nat × Nat)) (acc : Option Nearest) :
    (l.foldl (darkStep m) acc = acc ∧
      ∀ p ∈ l, m.dark p.2.1 p.2.2 = true → ∃ n, acc = some n ∧ n.square_distance < p.1) ∨
    (∃ (n : Nearest) (pre suf : List (Nat × Nat × Nat)),
      l.foldl (darkStep m) acc = some n ∧
      l = pre ++ (n.square_distance, n.x, n.y) :: suf ∧ m.dark n.x n.y = true ∧
      ∀ p ∈ suf, m.dark p.2.1 p.2.2 = true → n.square_distance < p.1) := by
  induction l using List.reverseRecOn with
  | nil => exact Or.inl ⟨rfl, fun p hp => absurd hp (List.not_mem_nil p)⟩
  | append_singleton l e ih =>
    obtain ⟨d, ex, ey⟩ := e
    rw [List.foldl_append, List.foldl_cons, List.foldl_nil]
    by_cases hd : m.dark ex ey = true
    · rcases ih with ⟨hr, hprop⟩ | ⟨n, pre, suf, hr, hdecomp, hdark, hsuf⟩
      · rw [hr]
        cases acc with
        | none =>
          refine Or.inr ⟨⟨d, ex, ey⟩, l, [], darkStep_dark_none m hd, by simp, hd, ?_⟩
          intro p hp
          cases hp
        | some v =>
          by_cases hlt : v.square_distance < d
          · refine Or.inl ⟨darkStep_dark_keep m hd hlt, ?_⟩
            intro p hp
            rcases List.mem_append.mp hp with h | h
            · exact hprop p h
            · rw [List.mem_singleton] at h
              subst h
              exact fun _ => ⟨v, rfl, hlt⟩
          · exact Or.inr ⟨⟨d, ex, ey⟩, l, [], darkStep_dark_replace m hd hlt, by simp, hd,
              fun p hp => absurd hp (List.not_mem_nil p)⟩
      · rw [hr]
        by_cases hlt : n.square_distance < d
        · refine Or.inr ⟨n, pre, suf ++ [(d, ex, ey)], darkStep_dark_keep m hd hlt, ?_, hdark, ?_⟩
          · rw [hdecomp]
            simp
          · intro p hp
            rcases List.mem_append.mp hp with h | h
            · exact hsuf p h
            · rw [List.mem_singleton] at h
              subst h
              exact fun _ => hlt
        · exact Or.inr ⟨⟨d, ex, ey⟩, l, [], darkStep_dark_replace m hd hlt, by simp, hd,
            fun p hp => absurd hp (List.not_mem_nil p)⟩
    · rw [darkStep_not_dark m _ hd]
      rcases ih with ⟨hr, hprop⟩ | ⟨n, pre, suf, hr, hdecomp, hdark, hsuf⟩
      · refine Or.inl ⟨hr, ?_⟩
        intro p hp
        rcases List.mem_append.mp hp with h | h
        · exact hprop p h
        · rw [List.mem_singleton] at h
          subst h
          intro hc
          exact absurd hc hd
      · refine Or.inr ⟨n, pre, suf ++ [(d, ex, ey)], hr, ?_, hdark, ?_⟩
        · rw [hdecomp]
          simp
        · intro p hp
          rcases List.mem_append.mp hp with h | h
          · exact hsuf p h
          · rw [List.mem_singleton] at h
            subst h
            intro hc
            exact absurd hc hd

lemma find_all_light (m : Mask)
    (hlight : ∀ x, x < m.width → ∀ y, y < m.height → m.dark x y = false) (fx fy : Bool) :
    find_nearest_to_corner m fx fy = none := by
  rw [find_eq_visitFold]
  have hnone : visitFold m fx fy = none := by
    apply foldl_darkStep_none
    intro p hp
    obtain ⟨h1, h2, _⟩ := visitOrder_sound m fx fy hp
    exact hlight p.2.1 h1 p.2.2 h2
  rw [hnone]
  rfl

lemma offsetY_false (m : Mask) (y : Nat) : offsetY m false y = y := rfl

lemma offsetY_true (m : Mask) (y : Nat) : offsetY m true y = m.height - 1 - y := rfl

lemma offsetX_false (m : Mask) (x : Nat) : offsetX m false x = x := rfl

lemma offsetX_true (m : Mask) (x : Nat) : offsetX m true x = m.width - 1 - x := rfl

lemma corner_order_aux (A B yT yB h : Nat) (hT : yT ≤ h) (hB : yB ≤ h)
    (h1 : A * A + yT * yT ≤ B * B + yB * yB)
    (h2 : B * B + (h - yB) * (h - yB) ≤ A * A + (h - yT) * (h - yT)) : yT ≤ yB := by
  rcases Nat.eq_zero_or_pos h with h0 | h0
  · subst h0
    exact le_trans hT (Nat.zero_le yB)
  · by_contra hc
    push_neg at hc
    zify [hT, hB] at h1 h2
    have hh : (1 : ℤ) ≤ (h : ℤ) := by exact_mod_cast h0
    have hcc : (yB : ℤ) + 1 ≤ (yT : ℤ) := by exact_mod_cast hc
    nlinarith [h1, h2, hh, hcc,
      mul_nonneg (by linarith : (0 : ℤ) ≤ (h : ℤ))
        (by linarith : (0 : ℤ) ≤ (yT : ℤ) - (yB : ℤ) - 1)]

lemma find_y_mono (m : Mask) (fx : Bool) {pT pB : Nat × Nat}
    (hT : find_nearest_to_corner m fx false = some pT)
    (hB : find_nearest_to_corner m fx true = some pB) : pT.2 ≤ pB.2 := by
  obtain ⟨hdT, hminT⟩ := find_some_spec m fx false hT
  obtain ⟨hdB, hminB⟩ := find_some_spec m fx true hB
  have h1 := hminT pB.1 pB.2 hdB
  have h2 := hminB pT.1 pT.2 hdT
  unfold cornerDistSq at h1 h2
  rw [offsetY_false, offsetY_false] at h1
  rw [offsetY_true, offsetY_true] at h2
  exact corner_order_aux (offsetX m fx pT.1) (offsetX m fx pB.1) pT.2 pB.2 (m.height - 1)
    (by have := hdT.2.1; omega) (by have := hdB.2.1; omega) h1 h2

lemma find_x_mono (m : Mask) (fy : Bool) {pL pR : Nat × Nat}
    (hL : find_nearest_to_corner m false fy = some pL)
    (hR : find_nearest_to_corner m true fy = some pR) : pL.1 ≤ pR.1 := by
  obtain ⟨hdL, hminL⟩ := find_some_spec m false fy hL
  obtain ⟨hdR, hminR⟩ := find_some_spec m true fy hR
  have h1 := hminL pR.1 pR.2 hdR
  have h2 := hminR pL.1 pL.2 hdL
  unfold cornerDistSq at h1 h2
  rw [offsetX_false, offsetX_false] at h1
  rw [offsetX_true, offsetX_true] at h2
  refine corner_order_aux (offsetY m fy pL.2) (offsetY m fy pR.2) pL.1 pR.1 (m.width - 1)
    (by have := hdL.1; omega) (by have := hdR.1; omega) (by linarith [h1]) (by linarith [h2])

/-- C4: for every mask containing a dark pixel and every corner selector, the
expanding-ring search returns a dark pixel whose true squared Euclidean
distance to that corner is minimal over all dark pixels of the mask; in
particular the early break never loses a strictly closer dark pixel. -/
theorem find_nearest_minimal (m : Mask) (fx fy : Bool)
    (hdark : ∃ x y, DarkIn m x y) :
    ∃ p, find_nearest_to_corner m fx fy = some p ∧ DarkIn m p.1 p.2 ∧
      ∀ x y, DarkIn m x y →
        cornerDistSq m fx fy p.1 p.2 ≤ cornerDistSq m fx fy x y := by
  obtain ⟨p, hp⟩ := find_isSome m fx fy hdark
  obtain ⟨h1, h2⟩ := find_some_spec m fx fy hp
  exact ⟨p, hp, h1, h2⟩

/-- Witness for C4 on the concrete mask `c4mask`. -/
theorem find_nearest_minimal_check :
    (∃ x y, DarkIn c4mask x y) ∧
    (∃ p, find_nearest_to_corner c4mask true false = some p ∧ DarkIn c4mask p.1 p.2 ∧
      ∀ x y, DarkIn c4mask x y →
        cornerDistSq c4mask true false p.1 p.2 ≤ cornerDistSq c4mask true false x y) := by
  have hd : DarkIn c4mask 2 1 := ⟨by decide, by decide, rfl⟩
  exact ⟨⟨2, 1, hd⟩, find_nearest_minimal c4mask true false ⟨2, 1, hd⟩⟩

/-- C6: on a mask with no dark pixel every corner selector returns `none` and
the pipeline stops at the "No interesting points" error of the first search;
on a mask whose only dark pixel is `(x₀, y₀)`, every corner selector returns
`(x₀, y₀)`. -/
theorem corner_search_empty_and_single (m : Mask) :
    ((∀ x, x < m.width → ∀ y, y < m.height → m.dark x y = false) →
      (∀ fx fy, find_nearest_to_corner m fx fy = none) ∧
        crop_stage m = StageResult.noPoints) ∧
    (∀ x₀ y₀, DarkIn m x₀ y₀ → (∀ x y, DarkIn m x y → x = x₀ ∧ y = y₀) →
      ∀ fx fy, find_nearest_to_corner m fx fy = some (x₀, y₀)) := by
  constructor
  · intro hlight
    refine ⟨fun fx fy => find_all_light m hlight fx fy, ?_⟩
    have h0 := find_all_light m hlight false false
    unfold crop_stage
    rw [h0]
  · intro x₀ y₀ h₀ huniq fx fy
    obtain ⟨p, hp⟩ := find_isSome m fx fy ⟨x₀, y₀, h₀⟩
    obtain ⟨hdark, _⟩ := find_some_spec m fx fy hp
    obtain ⟨hx, hy⟩ := huniq p.1 p.2 hdark
    obtain ⟨p1, p2⟩ := p
    subst hx
    subst hy
    exact hp

/-- Witness for C6 on the concrete masks `c6emptyMask` and `c6oneMask`. -/
theorem corner_search_empty_and_single_check :
    (find_nearest_to_corner c6emptyMask false false = none ∧
      crop_stage c6emptyMask = StageResult.noPoints) ∧
    find_nearest_to_corner c6oneMask true true = some (1, 1) := by
  have hlight : ∀ x, x < c6emptyMask.width → ∀ y, y < c6emptyMask.height →
      c6emptyMask.dark x y = false := fun x _ y _ => rfl
  have hone : DarkIn c6oneMask 1 1 := ⟨by decide, by decide, rfl⟩
  have huniq : ∀ x y, DarkIn c6oneMask x y → x = 1 ∧ y = 1 := by
    intro x y hxy
    obtain ⟨_, _, hd⟩ := hxy
    simp only [c6oneMask, Bool.and_eq_true, beq_iff_eq] at hd
    exact hd
  exact ⟨⟨((corner_search_empty_and_single c6emptyMask).1 hlight).1 false false,
      ((corner_search_empty_and_single c6emptyMask).1 hlight).2⟩,
    (corner_search_empty_and_single c6oneMask).2 1 1 hone huniq true true⟩

/-- C7 counterexample: on `c7mask` the dark pixels `(0,1)` and `(1,0)` are both
at squared distance 1 from the top-left corner; the scan visits `(0,1)` (row
scan of ring 1) strictly before `(1,0)` (column scan of ring 1), yet the
search returns `(1,0)`: the later equal-distance candidate replaced the
earlier one, refuting the claimed first-encountered tie-break. -/
theorem tie_break_cex :
    c7mask.dark 0 1 = true ∧ c7mask.dark 1 0 = true ∧
    cornerDistSq c7mask false false 0 1 = 1 ∧ cornerDistSq c7mask false false 1 0 = 1 ∧
    visitOrder c7mask false false = [(0, 0, 0), (1, 0, 1), (2, 1, 1), (1, 1, 0)] ∧
    find_nearest_to_corner c7mask false false = some (1, 0) := by
  decide

/-- C7 (amended): when dark pixels tie on squared distance, the search keeps
the LAST one encountered in scan order: the visit of the returned pixel splits
the scan order so that every dark visit strictly after it has strictly larger
squared distance (an equal-distance candidate seen later would have replaced
it). -/
theorem tie_break_keeps_last (m : Mask) (fx fy : Bool) {p : Nat × Nat}
    (h : find_nearest_to_corner m fx fy = some p) :
    ∃ pre suf,
      visitOrder m fx fy = pre ++ (cornerDistSq m fx fy p.1 p.2, p.1, p.2) :: suf ∧
      m.dark p.1 p.2 = true ∧
      ∀ q ∈ suf, m.dark q.2.1 q.2.2 = true → cornerDistSq m fx fy p.1 p.2 < q.1 := by
  rw [find_eq_visitFold] at h
  cases hv : visitFold m fx fy with
  | none => rw [hv] at h; cases h
  | some n =>
    rw [hv] at h
    simp only [Option.map_some'] at h
    obtain ⟨p1, p2⟩ := p
    injection h with h
    injection h with h1 h2
    subst h1
    subst h2
    obtain ⟨hdarkIn, hsd⟩ := visitFold_good m fx fy hv
    rcases foldl_darkStep_lastMin m (visitOrder m fx fy) none with ⟨hr, _⟩ |
      ⟨n', pre, suf, hr, hdecomp, hdark', hsuf⟩
    · have hnone : visitFold m fx fy = none := hr
      rw [hnone] at hv
      cases hv
    · have hsome : visitFold m fx fy = some n' := hr
      rw [hv] at hsome
      injection hsome with hsome
      subst hsome
      refine ⟨pre, suf, ?_, hdarkIn.2.2, ?_⟩
      · rw [← hsd]
        exact hdecomp
      · intro q hq hdq
        rw [← hsd]
        exact hsuf q hq hdq

/-- Witness for the amended C7 on the concrete mask `c7mask`. -/
theorem tie_break_keeps_last_check :
    find_nearest_to_corner c7mask false false = some (1, 0) ∧
    (∃ pre suf,
      visitOrder c7mask false false =
        pre ++ (cornerDistSq c7mask false false 1 0, 1, 0) :: suf ∧
      c7mask.dark 1 0 = true ∧
      ∀ q ∈ suf, c7mask.dark q.2.1 q.2.2 = true →
        cornerDistSq c7mask false false 1 0 < q.1) :=
  ⟨by decide, @tie_break_keeps_last c7mask false false (1, 0) (by decide)⟩

/-- C10: the four corner searches are coherently ordered: with the same
horizontal flip, the bottom search's y is at least the top search's y, and
with the same vertical flip, the right search's x is at least the left
search's x; hence the four `u32` subtractions
`closest[1].0 - closest[0].0`, `closest[2].0 - closest[3].0`,
`closest[3].1 - closest[0].1`, `closest[2].1 - closest[1].1`
(main.rs 209-210) never underflow. -/
theorem corner_searches_ordered (m : Mask) (c0 c1 c2 c3 : Nat × Nat)
    (h0 : find_nearest_to_corner m false false = some c0)
    (h1 : find_nearest_to_corner m true false = some c1)
    (h2 : find_nearest_to_corner m true true = some c2)
    (h3 : find_nearest_to_corner m false true = some c3) :
    c0.2 ≤ c3.2 ∧ c1.2 ≤ c2.2 ∧ c0.1 ≤ c1.1 ∧ c3.1 ≤ c2.1 :=
  ⟨find_y_mono m false h0 h3, find_y_mono m true h1 h2,
    find_x_mono m false h0 h1, find_x_mono m true h3 h2⟩

/-- Witness for C10 on the concrete mask `c10mask`. -/
theorem corner_searches_ordered_check :
    find_nearest_to_corner c10mask false false = some (0, 0) ∧
    find_nearest_to_corner c10mask true false = some (3, 2) ∧
    find_nearest_to_corner c10mask true true = some (3, 2) ∧
    find_nearest_to_corner c10mask false true = some (0, 0) ∧
    ((0 : Nat) ≤ 0 ∧ (2 : Nat) ≤ 2 ∧ (0 : Nat) ≤ 3 ∧ (0 : Nat) ≤ 3) :=
  ⟨by decide, by decide, by decide, by decide,
    corner_searches_ordered c10mask (0, 0) (3, 2) (3, 2) (0, 0)
      (by decide) (by decide) (by decide) (by decide)⟩

lemma adoptAspect_rel (w h : ℚ) : 9 * (adoptAspect w h).1 = 16 * (adoptAspect w h).2 := by
  unfold adoptAspect
  split
  · show 9 * (16 * h / 9) = 16 * h
    ring
  · show 9 * w = 16 * (9 * w / 16)
    ring

lemma adoptAspect_lower (w h : ℚ) (hw : 1 ≤ w) (hh : 1 ≤ h) :
    1 ≤ (adoptAspect w h).1 ∧ 9 / 16 ≤ (adoptAspect w h).2 := by
  unfold adoptAspect
  split
  · constructor
    · show 1 ≤ 16 * h / 9
      linarith
    · show 9 / 16 ≤ h
      linarith
  · constructor
    · show 1 ≤ w
      exact hw
    · show 9 / 16 ≤ 9 * w / 16
      linarith

lemma ratio_eq (w h : ℚ) (hw : w ≠ 0) (hh : h ≠ 0) (rel : 9 * w = 16 * h) :
    MAX_HEIGHT / h = MAX_WIDTH / w := by
  unfold MAX_HEIGHT MAX_WIDTH
  rw [div_eq_div_iff hh hw]
  linear_combination (1024 / 9 : ℚ) * rel

lemma clampDims_of_pos (w h : ℚ) (hw : 0 < w) (hh : 0 < h) (rel : 9 * w = 16 * h) :
    (1024 < h → clampDims w h = (MAX_WIDTH, MAX_HEIGHT)) ∧
    (h ≤ 1024 → clampDims w h = (w, h)) := by
  have hw0 : w ≠ 0 := ne_of_gt hw
  have hh0 : h ≠ 0 := ne_of_gt hh
  have hrr : MAX_HEIGHT / h = MAX_WIDTH / w := ratio_eq w h hw0 hh0 rel
  constructor
  · intro hgt
    have hle1 : divInfLe MAX_HEIGHT h MAX_WIDTH w = true := by
      unfold divInfLe
      rw [if_neg hh0, if_neg hw0]
      simp only [decide_eq_true_eq]
      rw [hrr]
    have hlt1 : divInfLtOne MAX_HEIGHT h = true := by
      unfold divInfLtOne
      rw [if_neg hh0]
      simp only [decide_eq_true_eq]
      rw [div_lt_one hh]
      exact hgt
    unfold clampDims
    rw [if_pos (by rw [hle1, hlt1]; rfl)]
    rw [hrr, Prod.mk.injEq]
    constructor
    · field_simp
    · rfl
  · intro hle
    have hlt1 : divInfLtOne MAX_HEIGHT h = false := by
      unfold divInfLtOne
      rw [if_neg hh0]
      simp only [decide_eq_false_iff_not]
      rw [div_lt_one hh]
      exact not_lt.mpr hle
    have hlt2 : divInfLtOne MAX_WIDTH w = false := by
      unfold divInfLtOne
      rw [if_neg hw0]
      simp only [decide_eq_false_iff_not]
      rw [div_lt_one hw]
      intro hcon
      unfold MAX_WIDTH at hcon
      linarith
    unfold clampDims
    rw [if_neg (by rw [hlt1, Bool.and_false]; exact Bool.false_ne_true)]
    rw [if_neg (by rw [hlt2, Bool.and_false]; exact Bool.false_ne_true)]

lemma clampDims_zero : clampDims 0 0 = (0, 0) := by
  unfold clampDims divInfLe divInfLtOne
  norm_num

lemma roundAsU32_le_of (q : ℚ) (b : Nat) (hq : q + 1 / 2 < (b : ℚ) + 1) :
    roundAsU32 q ≤ b := by
  unfold roundAsU32
  refine le_trans (min_le_left _ _) ?_
  rw [Int.toNat_le]
  have hfl : ⌊q + 1 / 2⌋ < (b : ℤ) + 1 := Int.floor_lt.mpr (by push_cast; linarith)
  omega

lemma roundAsU32_ge_one (q : ℚ) (hq : 1 / 2 ≤ q) : 1 ≤ roundAsU32 q := by
  unfold roundAsU32
  refine le_min ?_ (by norm_num)
  have h1 : (1 : ℤ) ≤ ⌊q + 1 / 2⌋ := Int.le_floor.mpr (by push_cast; linarith)
  omega

/-- C1 counterexample: at raw content bounds (16, 90) the height implied by
the width is 9, which is less than the raw height 90, yet the code adopts
`(width_aspect, height) = (160, 90)`: the adopted width exceeds the raw
content width 16, refuting both the claimed branch result
(raw width, height-implied-by-width) = (16, 9) and the claimed shrink
property. -/
theorem adoptAspect_cex :
    (9 * (16 : ℚ) / 16 < 90) ∧ adoptAspect 16 90 = (160, 90) ∧
      ¬ (adoptAspect 16 90).1 ≤ 16 := by
  refine ⟨by norm_num, ?_, ?_⟩
  · unfold adoptAspect
    rw [if_pos (by norm_num)]
    norm_num
  · unfold adoptAspect
    rw [if_pos (by norm_num)]
    show ¬ (16 * (90 : ℚ) / 9 ≤ 16)
    norm_num

/-- C1 (amended): the size policy's aspect adoption takes, when
height-implied-by-width < raw height, the pair
(width-implied-by-height, raw height), and otherwise
(raw width, height-implied-by-width); consequently the adopted width is never
below the raw width and the adopted height never below the raw height — the
rule only grows toward 16:9, never shrinks. -/
theorem adoptAspect_grows (rawW rawH : Nat) :
    (rawW : ℚ) ≤ (adoptAspect rawW rawH).1 ∧ (rawH : ℚ) ≤ (adoptAspect rawW rawH).2 ∧
    adoptAspect (rawW : ℚ) (rawH : ℚ) =
      (if 9 * (rawW : ℚ) / 16 < (rawH : ℚ) then (16 * (rawH : ℚ) / 9, (rawH : ℚ))
        else ((rawW : ℚ), 9 * (rawW : ℚ) / 16)) := by
  have h0 : (0 : ℚ) ≤ (rawW : ℚ) := Nat.cast_nonneg _
  have h1 : (0 : ℚ) ≤ (rawH : ℚ) := Nat.cast_nonneg _
  unfold adoptAspect
  split
  · rename_i hlt
    refine ⟨?_, ?_, rfl⟩
    · show (rawW : ℚ) ≤ 16 * (rawH : ℚ) / 9
      linarith
    · show (rawH : ℚ) ≤ (rawH : ℚ)
      exact le_refl _
  · rename_i hge
    refine ⟨?_, ?_, rfl⟩
    · show (rawW : ℚ) ≤ (rawW : ℚ)
      exact le_refl _
    · show (rawH : ℚ) ≤ 9 * (rawW : ℚ) / 16
      push_neg at hge
      linarith

/-- C5: for positive raw content bounds the rounded output dimensions are
never zero and never exceed (1024·16/9, 1024); and when either adopted
dimension exceeds its maximum, the clamp scales both dimensions uniformly by
the more restrictive (smaller) of the two ratios. -/
theorem sizePolicy_bounds (rawW rawH : Nat) (hW : 1 ≤ rawW) (hH : 1 ≤ rawH) :
    1 ≤ (sizePolicy rawW rawH).1 ∧ 1 ≤ (sizePolicy rawW rawH).2 ∧
    ((sizePolicy rawW rawH).1 : ℚ) ≤ 1024 * 16 / 9 ∧ (sizePolicy rawW rawH).2 ≤ 1024 ∧
    (MAX_WIDTH < (adoptAspect (rawW : ℚ) (rawH : ℚ)).1 ∨
        MAX_HEIGHT < (adoptAspect (rawW : ℚ) (rawH : ℚ)).2 →
      clampDims (adoptAspect (rawW : ℚ) (rawH : ℚ)).1 (adoptAspect (rawW : ℚ) (rawH : ℚ)).2 =
        ((adoptAspect (rawW : ℚ) (rawH : ℚ)).1 *
            min (MAX_HEIGHT / (adoptAspect (rawW : ℚ) (rawH : ℚ)).2)
              (MAX_WIDTH / (adoptAspect (rawW : ℚ) (rawH : ℚ)).1),
          (adoptAspect (rawW : ℚ) (rawH : ℚ)).2 *
            min (MAX_HEIGHT / (adoptAspect (rawW : ℚ) (rawH : ℚ)).2)
              (MAX_WIDTH / (adoptAspect (rawW : ℚ) (rawH : ℚ)).1))) := by
  have hW1 : (1 : ℚ) ≤ (rawW : ℚ) := by exact_mod_cast hW
  have hH1 : (1 : ℚ) ≤ (rawH : ℚ) := by exact_mod_cast hH
  obtain ⟨hw1, hh1⟩ := adoptAspect_lower (rawW : ℚ) (rawH : ℚ) hW1 hH1
  have rel := adoptAspect_rel (rawW : ℚ) (rawH : ℚ)
  have hwpos : 0 < (adoptAspect (rawW : ℚ) (rawH : ℚ)).1 := by linarith
  have hhpos : 0 < (adoptAspect (rawW : ℚ) (rawH : ℚ)).2 := by linarith
  have hclamp := clampDims_of_pos _ _ hwpos hhpos rel
  have hsp : sizePolicy rawW rawH =
      (roundAsU32 (clampDims (adoptAspect (rawW : ℚ) (rawH : ℚ)).1
          (adoptAspect (rawW : ℚ) (rawH : ℚ)).2).1,
        roundAsU32 (clampDims (adoptAspect (rawW : ℚ) (rawH : ℚ)).1
          (adoptAspect (rawW : ℚ) (rawH : ℚ)).2).2) := rfl
  have hMW : MAX_WIDTH = 1024 * 16 / 9 := rfl
  have hMH : MAX_HEIGHT = (1024 : ℚ) := rfl
  by_cases hcase : 1024 < (adoptAspect (rawW : ℚ) (rawH : ℚ)).2
  · have hc := hclamp.1 hcase
    rw [hsp, hc]
    refine ⟨?_, ?_, ?_, ?_, ?_⟩
    · exact roundAsU32_ge_one _ (by rw [hMW]; norm_num)
    · exact roundAsU32_ge_one _ (by rw [hMH]; norm_num)
    · have hle : roundAsU32 MAX_WIDTH ≤ 1820 :=
        roundAsU32_le_of _ 1820 (by rw [hMW]; norm_num)
      have : ((roundAsU32 MAX_WIDTH : ℚ)) ≤ (1820 : ℚ) := by exact_mod_cast hle
      show ((roundAsU32 MAX_WIDTH : ℚ)) ≤ 1024 * 16 / 9
      linarith [this]
    · exact roundAsU32_le_of _ 1024 (by rw [hMH]; norm_num)
    · intro hex
      have hrr : MAX_HEIGHT / (adoptAspect (rawW : ℚ) (rawH : ℚ)).2 =
          MAX_WIDTH / (adoptAspect (rawW : ℚ) (rawH : ℚ)).1 :=
        ratio_eq _ _ (ne_of_gt hwpos) (ne_of_gt hhpos) rel
      have hw0 : (adoptAspect (rawW : ℚ) (rawH : ℚ)).1 ≠ 0 := ne_of_gt hwpos
      have hh0 : (adoptAspect (rawW : ℚ) (rawH : ℚ)).2 ≠ 0 := ne_of_gt hhpos
      rw [← hrr, min_self, Prod.mk.injEq]
      constructor
      · rw [hrr]
        field_simp
      · field_simp
  · push_neg at hcase
    have hc := hclamp.2 hcase
    rw [hsp, hc]
    have hwle : (adoptAspect (rawW : ℚ) (rawH : ℚ)).1 ≤ 16384 / 9 := by linarith
    refine ⟨?_, ?_, ?_, ?_, ?_⟩
    · exact roundAsU32_ge_one _ (by linarith)
    · exact roundAsU32_ge_one _ (by linarith)
    · have hle : roundAsU32 (adoptAspect (rawW : ℚ) (rawH : ℚ)).1 ≤ 1820 :=
        roundAsU32_le_of _ 1820 (by push_cast; linarith)
      have hcast : ((roundAsU32 (adoptAspect (rawW : ℚ) (rawH : ℚ)).1 : ℚ)) ≤ (1820 : ℚ) := by
        exact_mod_cast hle
      show ((roundAsU32 (adoptAspect (rawW : ℚ) (rawH : ℚ)).1 : ℚ)) ≤ 1024 * 16 / 9
      linarith
    · exact roundAsU32_le_of _ 1024 (by push_cast; linarith)
    · intro hex
      exfalso
      rcases hex with hx | hx
      · rw [hMW] at hx
        linarith
      · rw [hMH] at hx
        linarith

/-- Witness for C5 at the concrete raw bounds (10000, 10). -/
theorem sizePolicy_bounds_check :
    1 ≤ 10000 ∧ 1 ≤ 10 ∧
    (1 ≤ (sizePolicy 10000 10).1 ∧ 1 ≤ (sizePolicy 10000 10).2 ∧
      ((sizePolicy 10000 10).1 : ℚ) ≤ 1024 * 16 / 9 ∧ (sizePolicy 10000 10).2 ≤ 1024 ∧
      (MAX_WIDTH < (adoptAspect (10000 : ℚ) (10 : ℚ)).1 ∨
          MAX_HEIGHT < (adoptAspect (10000 : ℚ) (10 : ℚ)).2 →
        clampDims (adoptAspect (10000 : ℚ) (10 : ℚ)).1 (adoptAspect (10000 : ℚ) (10 : ℚ)).2 =
          ((adoptAspect (10000 : ℚ) (10 : ℚ)).1 *
              min (MAX_HEIGHT / (adoptAspect (10000 : ℚ) (10 : ℚ)).2)
                (MAX_WIDTH / (adoptAspect (10000 : ℚ) (10 : ℚ)).1),
            (adoptAspect (10000 : ℚ) (10 : ℚ)).2 *
              min (MAX_HEIGHT / (adoptAspect (10000 : ℚ) (10 : ℚ)).2)
                (MAX_WIDTH / (adoptAspect (10000 : ℚ) (10 : ℚ)).1)))) :=
  ⟨by norm_num, by norm_num, sizePolicy_bounds 10000 10 (by norm_num) (by norm_num)⟩

/-- C8: the code evaluated at the failing input.  On `c8mask` (a mask whose
only dark pixel is (1, 1)) all four corner searches return (1, 1), both raw
content spans are 0 and the rounded output dimensions are (0, 0); `crop`
performs no post-rounding dimension check and reaches the
`from_control_points` call with dimensions (0, 0) instead of failing with an
InvalidGeometry error before the solve. -/
theorem crop_stage_no_dim_check : crop_stage c8mask = StageResult.solve (0, 0) := by
  have h0 : find_nearest_to_corner c8mask false false = some (1, 1) := by decide
  have h1 : find_nearest_to_corner c8mask true false = some (1, 1) := by decide
  have h2 : find_nearest_to_corner c8mask true true = some (1, 1) := by decide
  have h3 : find_nearest_to_corner c8mask false true = some (1, 1) := by decide
  have hsz : sizePolicy 0 0 = (0, 0) := by
    have ha : adoptAspect ((0 : Nat) : ℚ) ((0 : Nat) : ℚ) = (0, 0) := by
      unfold adoptAspect
      norm_num
    have hround : roundAsU32 0 = 0 := by
      unfold roundAsU32
      norm_num
    show (roundAsU32 (clampDims (adoptAspect ((0 : Nat) : ℚ) ((0 : Nat) : ℚ)).1
        (adoptAspect ((0 : Nat) : ℚ) ((0 : Nat) : ℚ)).2).1,
      roundAsU32 (clampDims (adoptAspect ((0 : Nat) : ℚ) ((0 : Nat) : ℚ)).1
        (adoptAspect ((0 : Nat) : ℚ) ((0 : Nat) : ℚ)).2).2) = (0, 0)
    rw [ha]
    show (roundAsU32 (clampDims 0 0).1, roundAsU32 (clampDims 0 0).2) = (0, 0)
    rw [clampDims_zero]
    show (roundAsU32 0, roundAsU32 0) = (0, 0)
    rw [hround]
  unfold crop_stage
  rw [h0, h1, h2, h3]
  show StageResult.solve (sizePolicy (max (1 - 1) (1 - 1)) (max (1 - 1) (1 - 1))) =
    StageResult.solve (0, 0)
  rw [show max (1 - 1) (1 - 1) = 0 from rfl, hsz]

lemma failedCount_pos_iff {α : Type} (jobs : List α) (run : α → Bool) :
    0 < failedCount (batchOutcomes jobs run) ↔ ∃ j ∈ jobs, run j = false := by
  unfold failedCount batchOutcomes
  constructor
  · intro h
    obtain ⟨s, hs⟩ := List.length_pos_iff_exists_mem.mp h
    rw [List.mem_filter] at hs
    obtain ⟨hsmem, hsp⟩ := hs
    obtain ⟨j, hj, rfl⟩ := List.mem_map.mp hsmem
    refine ⟨j, hj, ?_⟩
    simpa using hsp
  · rintro ⟨j, hj, hrj⟩
    apply List.length_pos_iff_exists_mem.mpr
    exact ⟨false, List.mem_filter.mpr ⟨List.mem_map.mpr ⟨j, hj, hrj⟩, rfl⟩⟩

/-- C9: batch aggregation semantics (main.rs 311-330): every job is mapped to
its own outcome independently of the others, the reported failure count is
exactly the number of failed jobs, and the process exit status is 1 exactly
when some job failed and 0 exactly when all jobs succeeded. -/
theorem batch_semantics {α : Type} (jobs : List α) (run : α → Bool) :
    (batchOutcomes jobs run).length = jobs.length ∧
    (∀ i : Nat, (batchOutcomes jobs run)[i]? = jobs[i]?.map run) ∧
    failedCount (batchOutcomes jobs run) = (jobs.filter fun j => !(run j)).length ∧
    (exitCode (batchOutcomes jobs run) = 1 ↔ ∃ j ∈ jobs, run j = false) ∧
    (exitCode (batchOutcomes jobs run) = 0 ↔ ∀ j ∈ jobs, run j = true) := by
  refine ⟨List.length_map _ _, fun i => List.getElem?_map run jobs i, ?_, ?_, ?_⟩
  · unfold failedCount batchOutcomes
    rw [List.filter_map, List.length_map]
    rfl
  · unfold exitCode
    by_cases h : 0 < failedCount (batchOutcomes jobs run)
    · rw [if_pos h]
      exact iff_of_true rfl ((failedCount_pos_iff jobs run).mp h)
    · rw [if_neg h]
      refine iff_of_false (by norm_num) ?_
      intro hex
      exact h ((failedCount_pos_iff jobs run).mpr hex)
  · unfold exitCode
    by_cases h : 0 < failedCount (batchOutcomes jobs run)
    · rw [if_pos h]
      refine iff_of_false (by norm_num) ?_
      intro hall
      obtain ⟨j, hj, hrj⟩ := (failedCount_pos_iff jobs run).mp h
      rw [hall j hj] at hrj
      cases hrj
    · rw [if_neg h]
      refine iff_of_true rfl ?_
      intro j hj
      by_contra hc
      have hrj : run j = false := by
        cases hr : run j
        · rfl
        · exact absurd hr hc
      exact h ((failedCount_pos_iff jobs run).mpr ⟨j, hj, hrj⟩)
